import Mathlib

/-! Reductor scheduler of gg: a shallow embedding of `src/execution/reductor.cc`.

The Reductor drives a dependency graph of thunks to values.  The model below
follows `reductor.cc` statement by statement.  Collaborators whose code is not
part of `reductor.cc` (the dependency graph, the execution engines, the thunk
reader, the hash service, the event loop) are parameters of the model; the
reduction cache is a lookup function carried in the state.  Output written to
`cerr` and to the status bar is not modelled.
-/

set_option autoImplicit false

namespace GG

/-! ## Data model -/

/-- Content-addressed name, a `std::string` in the source. -/
abbrev Hash := String

/-- Modelled from the spec: `gg::ObjectType` is declared in `thunk/ggutils.hh`,
which is not among the sources; section 3 of the spec gives the three type
tags of a hash.  `reductor.cc` names only `ObjectType::Value`. -/
inductive ObjectType where
  | Thunk
  | Value
  | Executable
  deriving DecidableEq, Repr

/-- Modelled from the spec: `JobStatus` is declared in a header that is not
among the sources.  The eight named kinds are the case labels of the failure
callback (and the rows of section 7 of the spec); `other` stands for every
remaining enumerator or integral value, the `default` label of the switch. -/
inductive JobStatus where
  | ExecutionFailure
  | InvocationFailure
  | RateLimit
  | FetchDependenciesFailure
  | UploadOutputFailure
  | OperationalFailure
  | SocketFailure
  | ChildProcessFailure
  | other (code : Nat)
  deriving DecidableEq, Repr

/-- Modelled from the spec: `Poller::Result::Type` is declared outside the
sources; section 4.4 of the spec lists `Ready`, `Timeout` and `Exit`.
`reductor.cc` names `Timeout` and `Exit`. -/
inductive PollResultType where
  | Ready
  | Timeout
  | Exit
  deriving DecidableEq, Repr

/-- Modelled from the spec: a thunk as far as the Reductor reads it, its
dependency hashes and the tags of its declared outputs (`thunk.outputs()`). -/
structure Thunk where
  deps : List Hash
  outputs : List String
  deriving DecidableEq, Repr

/-- Pair built by `new_outputs.emplace_back( result->hash, tag )`. -/
structure ThunkOutput where
  hash : Hash
  tag : String
  deriving DecidableEq, Repr

/-- Record returned by `gg::cache::check`; the Reductor reads its `hash`. -/
structure ReductionResult where
  hash : Hash
  order : Nat
  deriving DecidableEq, Repr

/-- Exceptions that leave the Reductor.  `runtime_error` carries the message
passed to `std::runtime_error`; `out_of_range` is what `vector::at` (and a
failed lookup in a collaborator) throws; `read_error` is a failed
`ThunkReader::read`. -/
inductive Exn where
  | runtime_error (what : String)
  | out_of_range
  | read_error
  deriving DecidableEq, Repr

/-- Outcome of a member function: it returns with the state `s`, or an
exception leaves it with the state as mutated up to the throw. -/
inductive Res (σ : Type) where
  | ok (s : σ)
  | threw (e : Exn) (s : σ)

/-- State in which a call ended, whether it returned or threw. -/
def Res.state {σ : Type} : Res σ → σ
  | .ok s => s
  | .threw _ s => s

/-- Whether the call returned normally. -/
def Res.returned {σ : Type} : Res σ → Bool
  | .ok _ => true
  | .threw _ _ => false

/-! ## `std::unordered_set<std::string>` -/

/-- A `std::unordered_set<std::string>`: its keys, in iteration order, without
repetition.  The iteration order of the container is unspecified; the order of
`elems` stands for whatever order the container iterates in. -/
structure StringSet where
  elems : List Hash
  nodup : elems.Nodup

namespace StringSet

/-- The default-constructed set. -/
def empty : StringSet := ⟨[], List.nodup_nil⟩

/-- Number of keys, `size()`. -/
def size (s : StringSet) : Nat := s.elems.length

/-- Insertion of one key, `insert( h )`: no effect when the key is present. -/
def insert (s : StringSet) (h : Hash) : StringSet :=
  if hm : h ∈ s.elems then s else ⟨h :: s.elems, List.nodup_cons.mpr ⟨hm, s.nodup⟩⟩

/-- Removal of one key, `erase( h )`. -/
def erase (s : StringSet) (h : Hash) : StringSet :=
  ⟨s.elems.filter (fun x => decide (x ≠ h)), s.nodup.filter _⟩

/-- Range insertion `insert( first, last )`. -/
def insertAll (s : StringSet) (hs : List Hash) : StringSet :=
  hs.foldl insert s

/-- Range constructor `unordered_set( first, last )`. -/
def ofList (hs : List Hash) : StringSet := insertAll empty hs

end StringSet

/-! ## `int` arithmetic of the poller timeout -/

/-- Reduction of a mathematical integer to the signed integer of `bits` bits it
is stored as (two-complement wrap-around). -/
def wrap_int (bits : Nat) (x : Int) : Int :=
  (x + 2 ^ (bits - 1)) % 2 ^ bits - 2 ^ (bits - 1)

/-- The product `a * b` of two signed integers of `bits` bits.  Signed overflow
is undefined behaviour in C++; the model wraps, as the compiled code does. -/
def int_mul (bits : Nat) (a b : Int) : Int := wrap_int bits (a * b)

/-! ## Collaborators -/

/-- Operations of the dependency graph (`ExecutionGraph`, not among the
sources) that `reductor.cc` calls, over a graph state `G`.  `force_thunk`
returns the optional set of newly ready hashes (in iteration order) and the
mutated graph; `get_thunk` is `none` where the lookup throws. -/
structure GraphOps (G : Type) where
  empty : G
  add_thunk : G → Hash → G
  order_one_dependencies : G → Hash → List Hash
  get_thunk : G → Hash → Option Thunk
  force_thunk : G → Hash → List ThunkOutput → Option (List Hash) × G
  original_hash : G → Hash → Hash
  updated_hash : G → Hash → Hash

/-- Operations of an execution engine (`ExecutionEngine`, not among the
sources) that `reductor.cc` calls, over an engine state `E`.  `setup` stands
for `set_success_callback`, `set_failure_callback` and `init`. -/
structure EngineOps (E : Type) where
  can_execute : E → Thunk → Bool
  job_count : E → Nat
  max_jobs : E → Nat
  force_thunk : E → Thunk → E
  setup : E → E

/-- The Reductor object together with the reduction cache it reads.
`job_queue` is the `std::deque`, front first.  The members are declared in
`reductor.hh`, which is not among the sources; the two timeouts are taken to be
`int`, the type of the constructor parameter `base_timeout` they are
initialized from. -/
structure Reductor (G E C : Type) where
  target_hashes : List Hash
  remaining_targets : StringSet
  status_bar : Bool
  base_poller_timeout : Int
  poller_timeout : Int
  exec_engines : List E
  fallback_engines : List E
  dep_graph : G
  job_queue : List Hash
  running_jobs : StringSet
  finished_jobs : Nat
  estimated_cost : C
  cache : Hash → Option ReductionResult

/-- What one call of `exec_loop_.loop_once` did: it returned a result after
running callbacks (which may have changed the state), or a callback threw. -/
inductive Polled (σ : Type) where
  | result (r : PollResultType) (s : σ)
  | threw (e : Exn) (s : σ)

/-- Everything outside `reductor.cc` that the Reductor calls or relies on.
`int_bits` is the width of the signed integer type of the two timeouts, whose
declaration (`reductor.hh`) is not among the sources. -/
structure Env (G E C : Type) where
  graph : GraphOps G
  engine : EngineOps E
  read_thunk : Hash → Option Thunk
  for_output : Hash → String → Hash
  hash_type : Hash → ObjectType
  loop_once : Reductor G E C → Int → Polled (Reductor G E C)
  int_bits : Nat

section Model

variable {G E C : Type}

/-! ## Callbacks -/

/-- `Reductor::finalize_execution`, also the body of the success callback. -/
def finalize_execution [Add C] (env : Env G E C) (s : Reductor G E C) (old_hash : Hash)
    (outputs : List ThunkOutput) (cost : C) : Res (Reductor G E C) :=
  let s1 := { s with running_jobs := s.running_jobs.erase old_hash }
  match outputs with
  | [] => .threw .out_of_range s1
  | o :: _ =>
    let main_output_hash := o.hash
    let forced := env.graph.force_thunk s1.dep_graph old_hash outputs
    let s2 := { s1 with dep_graph := forced.2,
                        estimated_cost := s1.estimated_cost + cost }
    match forced.1 with
    | none => .ok s2
    | some new_o1s =>
      let s3 := { s2 with job_queue := s2.job_queue ++ new_o1s }
      let s4 :=
        if env.hash_type main_output_hash = ObjectType.Value then
          { s3 with remaining_targets :=
              s3.remaining_targets.erase (env.graph.original_hash s3.dep_graph old_hash) }
        else s3
      .ok { s4 with finished_jobs := s4.finished_jobs + 1 }

/-- The `failure_callback` lambda installed by the constructor. -/
def failure_callback (s : Reductor G E C) (old_hash : Hash)
    (failure_reason : JobStatus) : Res (Reductor G E C) :=
  match failure_reason with
  | .ExecutionFailure =>
    .threw (.runtime_error ("execution failed: " ++ old_hash)) s
  | .InvocationFailure
  | .RateLimit
  | .FetchDependenciesFailure
  | .UploadOutputFailure
  | .OperationalFailure
  | .SocketFailure
  | .ChildProcessFailure =>
    .ok { s with job_queue := s.job_queue ++ [old_hash] }
  | .other _ =>
    .threw (.runtime_error ("execution failed for an unknown reason: " ++ old_hash)) s

/-! ## The scheduling loop of `Reductor::reduce` -/

/-- The local `enum` of `Reductor::reduce`. -/
inductive ExecState where
  | CANNOT_BE_EXECUTED
  | FULL_CAPACITY
  | FULL_FALLBACK_CAPACITY
  | EXECUTING
  deriving DecidableEq, Repr

/-- One `for` loop over a tier of engines: `full` is the value stored when an
admitting engine is at capacity (`continue`), `st` is `exec_state` so far.  An
admitting engine with room gets `force_thunk` and ends the loop (`break`).
Returns the final `exec_state` and the engines of the tier. -/
def engine_loop (ops : EngineOps E) (thunk : Thunk) (full : ExecState) :
    List E → ExecState → ExecState × List E
  | [], st => (st, [])
  | e :: es, st =>
    if ops.can_execute e thunk then
      if ops.job_count e ≥ ops.max_jobs e then
        let r := engine_loop ops thunk full es full
        (r.1, e :: r.2)
      else
        (ExecState.EXECUTING, ops.force_thunk e thunk :: es)
    else
      let r := engine_loop ops thunk full es st
      (r.1, e :: r.2)

/-- The two engine loops of the dispatch branch: primaries, then fallbacks when
`exec_state` is still `CANNOT_BE_EXECUTED`.  Returns the final `exec_state`,
the primary engines and the fallback engines. -/
def dispatch (ops : EngineOps E) (thunk : Thunk) (primaries fallbacks : List E) :
    ExecState × List E × List E :=
  let p := engine_loop ops thunk ExecState.FULL_CAPACITY primaries
    ExecState.CANNOT_BE_EXECUTED
  if p.1 = ExecState.CANNOT_BE_EXECUTED then
    let f := engine_loop ops thunk ExecState.FULL_FALLBACK_CAPACITY fallbacks
      ExecState.CANNOT_BE_EXECUTED
    (f.1, p.2, f.2)
  else
    (p.1, p.2, fallbacks)

/-- The argument of `gg::cache::check` in the chase loop,
`cache_entry.initialized() ? cache_entry->hash : thunk_hash`; after the loop,
the hash it last looked up. -/
def chase_end (thunk_hash : Hash) (cache_entry : Option ReductionResult) : Hash :=
  match cache_entry with
  | some entry => entry.hash
  | none => thunk_hash

/-- The cache-chase loop `while ( true )` of `Reductor::reduce`, with `fuel`
bounding the number of `gg::cache::check` calls: `none` when the loop has not
ended within the bound, otherwise the final `cache_entry`. -/
def chase_loop (cache : Hash → Option ReductionResult) (thunk_hash : Hash) :
    Nat → Option ReductionResult → Option (Option ReductionResult)
  | 0, _ => none
  | fuel + 1, cache_entry =>
    let temp_cache_entry := cache (chase_end thunk_hash cache_entry)
    match temp_cache_entry with
    | some entry => chase_loop cache thunk_hash fuel (some entry)
    | none => some cache_entry

/-- The hash on which the chase loop started from `h` ends, `none` when it has
not ended within `fuel` lookups. -/
def chase (cache : Hash → Option ReductionResult) (fuel : Nat) (h : Hash) : Option Hash :=
  (chase_loop cache h fuel none).map (chase_end h)

/-- The `for` loop over `thunk.outputs()` of the cache-hit branch: `none` when
it throws, otherwise `new_outputs`. -/
def cached_outputs (cache : Hash → Option ReductionResult) (for_output : Hash → String → Hash)
    (thunk_hash : Hash) : List String → List ThunkOutput → Option (List ThunkOutput)
  | [], new_outputs => some new_outputs
  | tag :: tags, new_outputs =>
    match cache (for_output thunk_hash tag) with
    | none => none
    | some result =>
      cached_outputs cache for_output thunk_hash tags (new_outputs ++ [⟨result.hash, tag⟩])

/-- How one pass through the body of the drain loop ends: at the end of the
body (`next`), at the `break`, or with an exception. -/
inductive Flow (σ : Type) where
  | next (s : σ)
  | brk (s : σ)
  | threw (e : Exn) (s : σ)

/-- A call made as the last statement of the loop body: when it returns the
body ends, when it throws the exception leaves the loop. -/
def Flow.ofRes {σ : Type} : Res σ → Flow σ
  | .ok s => .next s
  | .threw e s => .threw e s

/-- Body of `while ( not job_queue_.empty() )` for the popped `thunk_hash`; `s`
is the state after `pop_front`.  `none` when the chase loop has not ended
within `fuel` lookups. -/
def drain_body [Add C] [Zero C] (env : Env G E C) (fuel : Nat) (s : Reductor G E C) (thunk_hash : Hash) :
    Option (Flow (Reductor G E C)) :=
  match chase_loop s.cache thunk_hash fuel none with
  | none => none
  | some (some _) =>
    match env.read_thunk thunk_hash with
    | none => some (.threw .read_error s)
    | some thunk =>
      match cached_outputs s.cache env.for_output thunk_hash thunk.outputs [] with
      | none => some (.threw (.runtime_error "inconsistent cache entries") s)
      | some new_outputs =>
        some (Flow.ofRes (finalize_execution env s thunk_hash new_outputs 0))
  | some none =>
    match env.graph.get_thunk s.dep_graph thunk_hash with
    | none => some (.threw .out_of_range s)
    | some thunk =>
      let d := dispatch env.engine thunk s.exec_engines s.fallback_engines
      let s1 := { s with exec_engines := d.2.1, fallback_engines := d.2.2 }
      match d.1 with
      | .EXECUTING =>
        some (.next { s1 with running_jobs := s1.running_jobs.insert thunk_hash })
      | .FULL_CAPACITY | .FULL_FALLBACK_CAPACITY =>
        some (.brk { s1 with job_queue := thunk_hash :: s1.job_queue })
      | .CANNOT_BE_EXECUTED =>
        some (.threw (.runtime_error ("no execution engine could execute " ++ thunk_hash)) s1)

/-- The drain loop `while ( not job_queue_.empty() )`, at most `fuel` passes
(each chase loop within the remaining fuel): `none` when it has not ended
within the bound. -/
def drain [Add C] [Zero C] (env : Env G E C) : Nat → Reductor G E C → Option (Res (Reductor G E C))
  | 0, _ => none
  | fuel + 1, s =>
    match s.job_queue with
    | [] => some (.ok s)
    | thunk_hash :: rest =>
      match drain_body env fuel { s with job_queue := rest } thunk_hash with
      | none => none
      | some (.next s1) => drain env fuel s1
      | some (.brk s1) => some (.ok s1)
      | some (.threw e s1) => some (.threw e s1)

/-- The statements of `Reductor::reduce` between `loop_once` and the
termination test, for the poll result `r`. -/
def straggler_step (env : Env G E C) (r : PollResultType) (s : Reductor G E C) :
    Reductor G E C :=
  if r = PollResultType.Timeout ∧ s.base_poller_timeout > 0 then
    { s with job_queue := s.job_queue ++ s.running_jobs.elems,
             poller_timeout :=
               max (int_mul env.int_bits s.poller_timeout s.base_poller_timeout)
                 s.poller_timeout }
  else
    { s with poller_timeout := s.base_poller_timeout }

/-- Modelled from the spec: `Reductor::is_finished` is defined in `reductor.hh`,
which is not among the sources; section 4.5 of the spec: all targets are
resolved when `remaining_targets` is empty and there is no running job and the
queue is empty. -/
def is_finished (s : Reductor G E C) : Bool :=
  s.remaining_targets.size == 0 && s.running_jobs.size == 0 && s.job_queue.isEmpty

/-- The `for` loop over `target_hashes_` that collects `final_hashes`. -/
def collect_final (graph : GraphOps G) (s : Reductor G E C) :
    List Hash → List Hash → Except Exn (List Hash)
  | [], final_hashes => .ok final_hashes
  | target_hash :: rest, final_hashes =>
    let final_hash := graph.updated_hash s.dep_graph target_hash
    match s.cache final_hash with
    | none =>
      .error (.runtime_error ("internal error: final answer not found for " ++ target_hash))
    | some answer => collect_final graph s rest (final_hashes ++ [answer.hash])

/-- A finished call of `Reductor::reduce`: what it returned or threw, the final
state, and the number of calls of `loop_once` it made. -/
structure Run (G E C : Type) where
  outcome : Except Exn (List Hash)
  state : Reductor G E C
  polls : Nat

/-- The outer loop `while ( true )` of `Reductor::reduce`, at most `fuel`
iterations; `polls` counts the calls of `loop_once` made so far.  `none` when
the call has not ended within the bound. -/
def reduce_loop [Add C] [Zero C] (env : Env G E C) : Nat → Reductor G E C → Nat → Option (Run G E C)
  | 0, _, _ => none
  | fuel + 1, s, polls =>
    match drain env fuel s with
    | none => none
    | some (.threw e s1) => some ⟨.error e, s1, polls⟩
    | some (.ok s1) =>
      match env.loop_once s1 s1.poller_timeout with
      | .threw e s2 => some ⟨.error e, s2, polls + 1⟩
      | .result r s2 =>
        let s3 := straggler_step env r s2
        if is_finished s3 ∨ r = PollResultType.Exit then
          if ¬ is_finished s3 then
            some ⟨.error (.runtime_error
              "unhandled poller failure happened, job is not finished"), s3, polls + 1⟩
          else
            some ⟨collect_final env.graph s3 s3.target_hashes [], s3, polls + 1⟩
        else
          reduce_loop env fuel s3 (polls + 1)

/-- The member function `Reductor::reduce`. -/
def reduce [Add C] [Zero C] (env : Env G E C) (fuel : Nat) (s : Reductor G E C) : Option (Run G E C) :=
  reduce_loop env fuel s 0

/-- The graph-building loop of the constructor: adds every target to the graph
and gathers the order-one dependencies in `all_o1_deps`. -/
def seed_graph (graph : GraphOps G) : List Hash → G → StringSet → G × StringSet
  | [], g, all_o1_deps => (g, all_o1_deps)
  | hash :: rest, g, all_o1_deps =>
    let g1 := graph.add_thunk g hash
    let thunk_o1_deps := graph.order_one_dependencies g1 hash
    seed_graph graph rest g1 (all_o1_deps.insertAll thunk_o1_deps)

/-- The constructor `Reductor::Reductor`, given the reduction cache the object
will read.  The storage backend plays no part in scheduling and is left out. -/
def construct [Add C] [Zero C] (env : Env G E C) (cache : Hash → Option ReductionResult)
    (target_hashes : List Hash) (execution_engines fallback_engines : List E)
    (base_timeout : Int) (status_bar : Bool) : Except Exn (Reductor G E C) :=
  let seeded := seed_graph env.graph target_hashes env.graph.empty StringSet.empty
  if execution_engines.length = 0 then
    .error (.runtime_error "no execution engines are available")
  else
    .ok { target_hashes := target_hashes
          remaining_targets := StringSet.ofList target_hashes
          status_bar := status_bar
          base_poller_timeout := base_timeout
          poller_timeout := base_timeout
          exec_engines := execution_engines.map env.engine.setup
          fallback_engines := fallback_engines.map env.engine.setup
          dep_graph := seeded.1
          job_queue := seeded.2.elems
          running_jobs := StringSet.empty
          finished_jobs := 0
          estimated_cost := 0
          cache := cache }

end Model

/-! ## A small concrete instance -/

/-- Engine state of the concrete instance: whether it admits every thunk, its
job count and its capacity. -/
structure DemoEngine where
  admits : Bool
  jobs : Nat
  cap : Nat
  deriving DecidableEq, Repr

/-- Engine operations of the concrete instance: `force_thunk` counts one more
job. -/
def demoEngineOps : EngineOps DemoEngine where
  can_execute := fun e _ => e.admits
  job_count := fun e => e.jobs
  max_jobs := fun e => e.cap
  force_thunk := fun e _ => { e with jobs := e.jobs + 1 }
  setup := fun e => e

/-- Graph of the concrete instance: the list of hashes present.  Every thunk
is order one and declares the single output `out`; forcing a present hash
removes it and readies nothing, forcing an absent hash returns nothing. -/
def demoGraphOps : GraphOps (List Hash) where
  empty := []
  add_thunk := fun g h => h :: g
  order_one_dependencies := fun _ h => [h]
  get_thunk := fun g h => if h ∈ g then some ⟨[], ["out"]⟩ else none
  force_thunk := fun g h _ => if h ∈ g then (some [], g.filter (fun x => decide (x ≠ h))) else (none, g)
  original_hash := fun _ h => h
  updated_hash := fun _ h => h

/-- Hash types of the concrete instance. -/
def demoHashType (h : Hash) : ObjectType :=
  if h = "V1" then ObjectType.Value
  else if h = "X1" then ObjectType.Executable
  else ObjectType.Thunk

/-- Concrete collaborators, with costs in `Int`; `loop_once` fires no callback
and reports `Ready`; the timeouts are 32-bit, the width of `int`. -/
def demoEnv : Env (List Hash) DemoEngine Int where
  graph := demoGraphOps
  engine := demoEngineOps
  read_thunk := fun _ => some ⟨[], ["out"]⟩
  for_output := fun h tag => h ++ "#" ++ tag
  hash_type := demoHashType
  loop_once := fun s _ => Polled.result PollResultType.Ready s
  int_bits := 32

/-- A cache without entries. -/
def emptyCache : Hash → Option ReductionResult := fun _ => none

/-- A cache holding the reduction of `T1` to the value `V1`, for the thunk and
for its output `out`. -/
def demoCache : Hash → Option ReductionResult := fun h =>
  if h = "T1" then some ⟨"V1", 0⟩
  else if h = "T1#out" then some ⟨"V1", 0⟩
  else none

/-- A state of the concrete instance with the given graph, queue, running set
and remaining targets, one idle primary engine of capacity one, no fallback,
and cost zero. -/
def demoState (cache : Hash → Option ReductionResult) (targets g queue : List Hash)
    (running remaining : StringSet) : Reductor (List Hash) DemoEngine Int where
  target_hashes := targets
  remaining_targets := remaining
  status_bar := false
  base_poller_timeout := 5000
  poller_timeout := 5000
  exec_engines := [⟨true, 0, 1⟩]
  fallback_engines := []
  dep_graph := g
  job_queue := queue
  running_jobs := running
  finished_jobs := 0
  estimated_cost := 0
  cache := cache

/-- A state of the concrete instance for the dispatch branch: the given
engines and queue, the thunks `T1`, `T2`, `T3` in the graph, the given cache,
nothing running. -/
def demoDispatchState (cache : Hash → Option ReductionResult)
    (primaries fallbacks : List DemoEngine) (queue : List Hash) :
    Reductor (List Hash) DemoEngine Int where
  target_hashes := ["T1", "T2", "T3"]
  remaining_targets := StringSet.ofList ["T1", "T2", "T3"]
  status_bar := false
  base_poller_timeout := 5000
  poller_timeout := 5000
  exec_engines := primaries
  fallback_engines := fallbacks
  dep_graph := ["T1", "T2", "T3"]
  job_queue := queue
  running_jobs := StringSet.empty
  finished_jobs := 0
  estimated_cost := 0
  cache := cache

/-! ## Facts about the containers and the `int` product -/

section Proofs

variable {G E C : Type}

theorem StringSet.mem_erase_iff (s : StringSet) (h x : Hash) :
    x ∈ (s.erase h).elems ↔ x ∈ s.elems ∧ x ≠ h := by
  simp [StringSet.erase, List.mem_filter]

theorem StringSet.not_mem_erase (s : StringSet) (h : Hash) : h ∉ (s.erase h).elems := by
  simp [StringSet.mem_erase_iff]

theorem StringSet.mem_insert_self (s : StringSet) (h : Hash) : h ∈ (s.insert h).elems := by
  unfold StringSet.insert
  split
  · assumption
  · simp

theorem two_pow_bits (bits : Nat) (hbits : 0 < bits) :
    (2 : Int) ^ bits = 2 * 2 ^ (bits - 1) := by
  obtain ⟨k, rfl⟩ : ∃ k, bits = k + 1 := ⟨bits - 1, by omega⟩
  simp [pow_succ]
  ring

theorem wrap_int_of_in_range (bits : Nat) (hbits : 0 < bits) (x : Int)
    (hlo : -2 ^ (bits - 1) ≤ x) (hhi : x < 2 ^ (bits - 1)) :
    wrap_int bits x = x := by
  unfold wrap_int
  have h2 := two_pow_bits bits hbits
  rw [Int.emod_eq_of_lt (by linarith) (by linarith)]
  ring

theorem wrap_int_range (bits : Nat) (hbits : 0 < bits) (x : Int) :
    -2 ^ (bits - 1) ≤ wrap_int bits x ∧ wrap_int bits x < 2 ^ (bits - 1) := by
  unfold wrap_int
  have h2 := two_pow_bits bits hbits
  have hpos : (0 : Int) < 2 ^ bits := by positivity
  have h0 := Int.emod_nonneg (x + 2 ^ (bits - 1)) (ne_of_gt hpos)
  have h1 := Int.emod_lt_of_pos (x + 2 ^ (bits - 1)) hpos
  constructor <;> linarith

theorem wrap_int_congr (bits : Nat) (x : Int) :
    (2 : Int) ^ bits ∣ wrap_int bits x - x := by
  unfold wrap_int
  refine ⟨-((x + 2 ^ (bits - 1)) / 2 ^ bits), ?_⟩
  have h := Int.emod_add_ediv (x + 2 ^ (bits - 1)) (2 ^ bits)
  linarith

/-! ## C2: the retry policy of the failure callback -/

/-- C2: the failure callback retries exactly the seven retriable kinds: for
each of them it returns normally and the new `job_queue` is the old one with
the hash appended at the tail, the rest of the state untouched; for
`ExecutionFailure` and for every reason outside the eight named kinds it throws
a `runtime_error` and leaves the whole state, `job_queue` included, as it
was. -/
theorem failure_callback_retry_policy (s : Reductor G E C) (h : Hash) (reason : JobStatus) :
    ((reason = JobStatus.InvocationFailure ∨ reason = JobStatus.RateLimit ∨
      reason = JobStatus.FetchDependenciesFailure ∨ reason = JobStatus.UploadOutputFailure ∨
      reason = JobStatus.OperationalFailure ∨ reason = JobStatus.SocketFailure ∨
      reason = JobStatus.ChildProcessFailure) →
        failure_callback s h reason = Res.ok { s with job_queue := s.job_queue ++ [h] } ∧
        (failure_callback s h reason).state.job_queue = s.job_queue ++ [h]) ∧
    ((reason = JobStatus.ExecutionFailure ∨ ∃ code, reason = JobStatus.other code) →
        (∃ what, failure_callback s h reason = Res.threw (Exn.runtime_error what) s) ∧
        (failure_callback s h reason).returned = false ∧
        (failure_callback s h reason).state.job_queue = s.job_queue) ∧
    (reason = JobStatus.ExecutionFailure ∨ (∃ code, reason = JobStatus.other code) ∨
      reason = JobStatus.InvocationFailure ∨ reason = JobStatus.RateLimit ∨
      reason = JobStatus.FetchDependenciesFailure ∨ reason = JobStatus.UploadOutputFailure ∨
      reason = JobStatus.OperationalFailure ∨ reason = JobStatus.SocketFailure ∨
      reason = JobStatus.ChildProcessFailure) := by
  refine ⟨?_, ?_, ?_⟩
  · intro hr
    rcases hr with hr | hr | hr | hr | hr | hr | hr <;> subst hr <;>
      exact ⟨rfl, rfl⟩
  · intro hr
    rcases hr with hr | ⟨code, hr⟩ <;> subst hr
    · exact ⟨⟨_, rfl⟩, rfl, rfl⟩
    · exact ⟨⟨_, rfl⟩, rfl, rfl⟩
  · cases reason <;> simp

/-- Witness of C2 on the concrete instance: a socket failure of `T2` re-queues
it behind `T1`, an execution failure throws and leaves the queue alone. -/
theorem failure_callback_retry_policy_witness :
    (failure_callback (demoState emptyCache [] ["T1", "T2"] ["T1"]
        (StringSet.ofList ["T2"]) StringSet.empty) "T2" JobStatus.SocketFailure).state.job_queue
      = ["T1", "T2"] ∧
    (failure_callback (demoState emptyCache [] ["T1", "T2"] ["T1"]
        (StringSet.ofList ["T2"]) StringSet.empty) "T2" JobStatus.ExecutionFailure).state.job_queue
      = ["T1"] :=
  ⟨((failure_callback_retry_policy (demoState emptyCache [] ["T1", "T2"] ["T1"]
        (StringSet.ofList ["T2"]) StringSet.empty) "T2" JobStatus.SocketFailure).1
      (by simp)).2,
   ((failure_callback_retry_policy (demoState emptyCache [] ["T1", "T2"] ["T1"]
        (StringSet.ofList ["T2"]) StringSet.empty) "T2" JobStatus.ExecutionFailure).2.1
      (Or.inl rfl)).2.2⟩

/-! ## C10: the cache chase -/

theorem chase_loop_end (cache : Hash → Option ReductionResult) (h : Hash) :
    ∀ (fuel : Nat) (entry0 result : Option ReductionResult),
      chase_loop cache h fuel entry0 = some result → cache (chase_end h result) = none := by
  intro fuel
  induction fuel with
  | zero => intro entry0 result hrun; simp [chase_loop] at hrun
  | succ n ih =>
    intro entry0 result hrun
    cases hc : cache (chase_end h entry0) with
    | none =>
      simp only [chase_loop, hc] at hrun
      cases hrun
      exact hc
    | some e =>
      simp only [chase_loop, hc] at hrun
      exact ih _ _ hrun

theorem chase_loop_more_fuel (cache : Hash → Option ReductionResult) (h : Hash) :
    ∀ (fuel : Nat) (entry0 result : Option ReductionResult),
      chase_loop cache h fuel entry0 = some result →
      chase_loop cache h (fuel + 1) entry0 = some result := by
  intro fuel
  induction fuel with
  | zero => intro entry0 result hrun; simp [chase_loop] at hrun
  | succ n ih =>
    intro entry0 result hrun
    cases hc : cache (chase_end h entry0) with
    | none =>
      simp only [chase_loop, hc] at hrun ⊢
      exact hrun
    | some e =>
      rw [chase_loop] at hrun ⊢
      simp only [hc] at hrun ⊢
      exact ih _ _ hrun

theorem chase_loop_add_fuel (cache : Hash → Option ReductionResult) (h : Hash)
    (fuel : Nat) (entry0 result : Option ReductionResult)
    (hrun : chase_loop cache h fuel entry0 = some result) :
    ∀ k : Nat, chase_loop cache h (fuel + k) entry0 = some result := by
  intro k
  induction k with
  | zero => exact hrun
  | succ k ih => exact chase_loop_more_fuel cache h (fuel + k) entry0 result ih

/-- C10: cache-chase idempotence.  Whenever the chase loop started from `h`
ends (within some bound `fuel` on its lookups) on the hash `c`, it ends on `c`
within every larger bound as well, the cache has no entry for `c`, and the
chase loop started from `c` ends on `c` itself, at its first lookup and
therefore within every positive bound. -/
theorem chase_idempotent (cache : Hash → Option ReductionResult) (h c : Hash) (fuel : Nat)
    (hends : chase cache fuel h = some c) :
    (∀ k : Nat, chase cache (fuel + k) h = some c) ∧
    cache c = none ∧ ∀ fuel2 : Nat, chase cache (fuel2 + 1) c = some c := by
  unfold chase at hends
  cases hrun : chase_loop cache h fuel none with
  | none => simp [hrun] at hends
  | some result =>
    simp only [hrun, Option.map_some'] at hends
    cases hends
    have hnone : cache (chase_end h result) = none :=
      chase_loop_end cache h fuel none result hrun
    refine ⟨?_, hnone, ?_⟩
    · intro k
      simp [chase, chase_loop_add_fuel cache h fuel none result hrun k]
    · intro fuel2
      have h1 : chase_loop cache (chase_end h result) (fuel2 + 1) none = some none := by
        rw [chase_loop]
        have h2 : chase_end (chase_end h result) none = chase_end h result := rfl
        simp only [h2, hnone]
      simp only [chase, h1, Option.map_some']
      rfl

/-- Witness of C10 on the concrete cache: the chase from `T1` ends on `V1`. -/
theorem chase_idempotent_witness :
    chase demoCache 2 "T1" = some "V1" ∧
    (∀ k : Nat, chase demoCache (2 + k) "T1" = some "V1") ∧
    demoCache "V1" = none ∧ ∀ fuel2 : Nat, chase demoCache (fuel2 + 1) "V1" = some "V1" :=
  ⟨by decide, chase_idempotent demoCache "T1" "V1" 2 (by decide)⟩

/-! ## C5: the straggler step -/

/-- C5, as the claim states it, fails: on the concrete instance (32-bit `int`,
`base_poller_timeout = 5000`) a first timeout raises `poller_timeout` from 5000
to 25000000, and a second one sets it to 445948416, the wrapped `int` product,
not to `max(25000000 * 5000, 25000000) = 125000000000`. -/
theorem straggler_timeout_wraps :
    (demoState emptyCache [] [] [] StringSet.empty StringSet.empty).poller_timeout = 5000 ∧
    (demoState emptyCache [] [] [] StringSet.empty StringSet.empty).base_poller_timeout = 5000 ∧
    (straggler_step demoEnv PollResultType.Timeout
        (demoState emptyCache [] [] [] StringSet.empty StringSet.empty)).poller_timeout
      = 25000000 ∧
    (straggler_step demoEnv PollResultType.Timeout
        (straggler_step demoEnv PollResultType.Timeout
          (demoState emptyCache [] [] [] StringSet.empty StringSet.empty))).poller_timeout
      = 445948416 ∧
    (straggler_step demoEnv PollResultType.Timeout
        (straggler_step demoEnv PollResultType.Timeout
          (demoState emptyCache [] [] [] StringSet.empty StringSet.empty))).poller_timeout
      ≠ max
        ((straggler_step demoEnv PollResultType.Timeout
            (demoState emptyCache [] [] [] StringSet.empty StringSet.empty)).poller_timeout
          * (straggler_step demoEnv PollResultType.Timeout
            (demoState emptyCache [] [] [] StringSet.empty
              StringSet.empty)).base_poller_timeout)
        (straggler_step demoEnv PollResultType.Timeout
            (demoState emptyCache [] [] [] StringSet.empty StringSet.empty)).poller_timeout := by
  decide

/-- C5, amended: the straggler step after one `loop_once` call, for every state
and every width of the timeout type.  If the poll result is `Timeout` and
`base_poller_timeout > 0`, the new `job_queue` is the old one followed by the
hashes of `running_jobs`, each exactly once, `running_jobs` itself is
unchanged, and the new `poller_timeout` is the maximum of `poller_timeout` and
the machine product `poller_timeout * base_poller_timeout`: the value of the
timeout type congruent to the exact product modulo `2 ^ bits`, which is the
exact product whenever that is representable.  In every case the new timeout is
not smaller than before.  For every other poll result, and for every poll
result when `base_poller_timeout` is not positive, `job_queue` is unchanged and
`poller_timeout` becomes `base_poller_timeout`. -/
theorem straggler_step_spec (env : Env G E C) (s : Reductor G E C) (r : PollResultType)
    (hbits : 0 < env.int_bits) :
    ((r = PollResultType.Timeout ∧ 0 < s.base_poller_timeout) →
        (straggler_step env r s).job_queue = s.job_queue ++ s.running_jobs.elems ∧
        s.running_jobs.elems.Nodup ∧
        (straggler_step env r s).running_jobs = s.running_jobs ∧
        (∃ product : Int,
          (2 : Int) ^ env.int_bits ∣ product - s.poller_timeout * s.base_poller_timeout ∧
          -2 ^ (env.int_bits - 1) ≤ product ∧ product < 2 ^ (env.int_bits - 1) ∧
          (straggler_step env r s).poller_timeout = max product s.poller_timeout) ∧
        ((-2 ^ (env.int_bits - 1) ≤ s.poller_timeout * s.base_poller_timeout ∧
            s.poller_timeout * s.base_poller_timeout < 2 ^ (env.int_bits - 1)) →
          (straggler_step env r s).poller_timeout
            = max (s.poller_timeout * s.base_poller_timeout) s.poller_timeout) ∧
        s.poller_timeout ≤ (straggler_step env r s).poller_timeout) ∧
    ((r ≠ PollResultType.Timeout ∨ s.base_poller_timeout ≤ 0) →
        (straggler_step env r s).job_queue = s.job_queue ∧
        (straggler_step env r s).running_jobs = s.running_jobs ∧
        (straggler_step env r s).poller_timeout = s.base_poller_timeout) := by
  constructor
  · intro hc
    have hstep : straggler_step env r s =
        { s with job_queue := s.job_queue ++ s.running_jobs.elems,
                 poller_timeout :=
                   max (int_mul env.int_bits s.poller_timeout s.base_poller_timeout)
                     s.poller_timeout } := by
      unfold straggler_step
      rw [if_pos]
      exact ⟨hc.1, hc.2⟩
    rw [hstep]
    refine ⟨rfl, s.running_jobs.nodup, rfl, ?_, ?_, le_max_right _ _⟩
    · exact ⟨int_mul env.int_bits s.poller_timeout s.base_poller_timeout,
        wrap_int_congr _ _, (wrap_int_range _ hbits _).1, (wrap_int_range _ hbits _).2, rfl⟩
    · intro hrange
      show max (int_mul env.int_bits s.poller_timeout s.base_poller_timeout) s.poller_timeout = _
      unfold int_mul
      rw [wrap_int_of_in_range _ hbits _ hrange.1 hrange.2]
  · intro hc
    have hstep : straggler_step env r s = { s with poller_timeout := s.base_poller_timeout } := by
      unfold straggler_step
      rw [if_neg]
      rintro ⟨h1, h2⟩
      rcases hc with hc | hc
      · exact hc h1
      · exact absurd h2 (not_lt.mpr hc)
    rw [hstep]
    exact ⟨rfl, rfl, rfl⟩

/-- Witness of C5 (amended) on the concrete instance: with `T1` and `T2`
running and `T3` queued, a timeout at `poller_timeout = base_poller_timeout =
5000` queues both behind `T3` and raises the timeout to the exact product
25000000; a `Ready` result leaves the queue alone. -/
theorem straggler_step_spec_witness :
    (straggler_step demoEnv PollResultType.Timeout (demoState emptyCache [] ["T1", "T2"] ["T3"]
        (StringSet.ofList ["T1", "T2"]) StringSet.empty)).job_queue = ["T3", "T2", "T1"] ∧
    (straggler_step demoEnv PollResultType.Timeout (demoState emptyCache [] ["T1", "T2"] ["T3"]
        (StringSet.ofList ["T1", "T2"]) StringSet.empty)).poller_timeout
      = max (5000 * 5000) 5000 ∧
    (straggler_step demoEnv PollResultType.Ready (demoState emptyCache [] ["T1", "T2"] ["T3"]
        (StringSet.ofList ["T1", "T2"]) StringSet.empty)).job_queue = ["T3"] :=
  ⟨((straggler_step_spec demoEnv (demoState emptyCache [] ["T1", "T2"] ["T3"]
        (StringSet.ofList ["T1", "T2"]) StringSet.empty) PollResultType.Timeout (by decide)).1
      ⟨rfl, by decide⟩).1,
   ((straggler_step_spec demoEnv (demoState emptyCache [] ["T1", "T2"] ["T3"]
        (StringSet.ofList ["T1", "T2"]) StringSet.empty) PollResultType.Timeout (by decide)).1
      ⟨rfl, by decide⟩).2.2.2.2.1 (by decide),
   ((straggler_step_spec demoEnv (demoState emptyCache [] ["T1", "T2"] ["T3"]
        (StringSet.ofList ["T1", "T2"]) StringSet.empty) PollResultType.Ready (by decide)).2
      (Or.inl (by decide))).1⟩

/-! ## C3, C4, C8: the callbacks -/

theorem finalize_execution_running_jobs [Add C] (env : Env G E C) (s : Reductor G E C)
    (h : Hash) (outputs : List ThunkOutput) (cost : C) :
    (finalize_execution env s h outputs cost).state.running_jobs = s.running_jobs.erase h := by
  unfold finalize_execution
  cases outputs with
  | nil => rfl
  | cons o rest =>
    simp only
    split
    · rfl
    · split <;> rfl

theorem finalize_execution_engines [Add C] (env : Env G E C) (s : Reductor G E C)
    (h : Hash) (outputs : List ThunkOutput) (cost : C) :
    (finalize_execution env s h outputs cost).state.exec_engines = s.exec_engines ∧
    (finalize_execution env s h outputs cost).state.fallback_engines = s.fallback_engines := by
  unfold finalize_execution
  cases outputs with
  | nil => exact ⟨rfl, rfl⟩
  | cons o rest =>
    simp only
    split
    · exact ⟨rfl, rfl⟩
    · split <;> exact ⟨rfl, rfl⟩

theorem finalize_execution_value [Add C] (env : Env G E C) (s : Reductor G E C)
    (h : Hash) (o : ThunkOutput) (rest : List ThunkOutput) (cost : C) (new_o1s : List Hash)
    (hpresent : (env.graph.force_thunk s.dep_graph h (o :: rest)).1 = some new_o1s)
    (hv : env.hash_type o.hash = ObjectType.Value) :
    finalize_execution env s h (o :: rest) cost = Res.ok
      { s with running_jobs := s.running_jobs.erase h,
               dep_graph := (env.graph.force_thunk s.dep_graph h (o :: rest)).2,
               estimated_cost := s.estimated_cost + cost,
               job_queue := s.job_queue ++ new_o1s,
               remaining_targets := s.remaining_targets.erase (env.graph.original_hash
                 (env.graph.force_thunk s.dep_graph h (o :: rest)).2 h),
               finished_jobs := s.finished_jobs + 1 } := by
  unfold finalize_execution
  simp only [hpresent, hv, if_true]

theorem finalize_execution_not_value [Add C] (env : Env G E C) (s : Reductor G E C)
    (h : Hash) (o : ThunkOutput) (rest : List ThunkOutput) (cost : C) (new_o1s : List Hash)
    (hpresent : (env.graph.force_thunk s.dep_graph h (o :: rest)).1 = some new_o1s)
    (hv : env.hash_type o.hash ≠ ObjectType.Value) :
    finalize_execution env s h (o :: rest) cost = Res.ok
      { s with running_jobs := s.running_jobs.erase h,
               dep_graph := (env.graph.force_thunk s.dep_graph h (o :: rest)).2,
               estimated_cost := s.estimated_cost + cost,
               job_queue := s.job_queue ++ new_o1s,
               finished_jobs := s.finished_jobs + 1 } := by
  unfold finalize_execution
  simp only [hpresent, hv, if_false]

/-- C3, as the claim states it, fails: on the concrete instance the graph is
empty, so forcing `T1` returns nothing, and the completion of `T1` with one
output and cost 1 raises `estimated_cost` from 0 to 1. -/
theorem duplicate_completion_adds_cost :
    (demoEnv.graph.force_thunk
        (demoState emptyCache [] [] [] (StringSet.ofList ["T1"]) StringSet.empty).dep_graph
        "T1" [⟨"V1", "out"⟩]).1 = none ∧
    (demoState emptyCache [] [] [] (StringSet.ofList ["T1"]) StringSet.empty).estimated_cost = 0 ∧
    (finalize_execution demoEnv
        (demoState emptyCache [] [] [] (StringSet.ofList ["T1"]) StringSet.empty)
        "T1" [⟨"V1", "out"⟩] 1).state.estimated_cost = 1 ∧
    (finalize_execution demoEnv
        (demoState emptyCache [] [] [] (StringSet.ofList ["T1"]) StringSet.empty)
        "T1" [⟨"V1", "out"⟩] 1).state.estimated_cost
      ≠ (demoState emptyCache [] [] [] (StringSet.ofList ["T1"]) StringSet.empty).estimated_cost := by
  decide

/-- C3, amended: for every hash `h` for which the force of the graph returns
nothing, every non-empty output list and every cost, `finalize_execution`
returns, leaves `finished_jobs`, `job_queue` and `remaining_targets`
unchanged, removes `h` from `running_jobs` (and nothing else), and adds the
cost to `estimated_cost`. -/
theorem finalize_duplicate_completion [Add C] (env : Env G E C) (s : Reductor G E C)
    (h : Hash) (outputs : List ThunkOutput) (cost : C)
    (hne : outputs ≠ [])
    (habsent : (env.graph.force_thunk s.dep_graph h outputs).1 = none) :
    ∃ s1, finalize_execution env s h outputs cost = Res.ok s1 ∧
      s1.finished_jobs = s.finished_jobs ∧
      s1.job_queue = s.job_queue ∧
      s1.remaining_targets = s.remaining_targets ∧
      s1.running_jobs = s.running_jobs.erase h ∧
      h ∉ s1.running_jobs.elems ∧
      (∀ x, x ≠ h → (x ∈ s1.running_jobs.elems ↔ x ∈ s.running_jobs.elems)) ∧
      s1.estimated_cost = s.estimated_cost + cost := by
  cases outputs with
  | nil => exact absurd rfl hne
  | cons o rest =>
    refine ⟨{ s with running_jobs := s.running_jobs.erase h,
                     dep_graph := (env.graph.force_thunk s.dep_graph h (o :: rest)).2,
                     estimated_cost := s.estimated_cost + cost }, ?_, rfl, rfl, rfl, rfl,
      StringSet.not_mem_erase _ _, ?_, rfl⟩
    · unfold finalize_execution
      simp only [habsent]
    · intro x hx
      simp [StringSet.mem_erase_iff, hx]

/-- Witness of C3 (amended) on the concrete instance: the completion of the
absent `T1` with cost 1 removes `T1` from the running set and adds 1 to the
cost. -/
theorem finalize_duplicate_completion_witness :
    ∃ s1, finalize_execution demoEnv
        (demoState emptyCache [] [] ["T2"] (StringSet.ofList ["T1"]) StringSet.empty)
        "T1" [⟨"V1", "out"⟩] 1 = Res.ok s1 ∧
      s1.finished_jobs = 0 ∧
      s1.job_queue = ["T2"] ∧
      s1.remaining_targets = StringSet.empty ∧
      s1.running_jobs = (StringSet.ofList ["T1"]).erase "T1" ∧
      "T1" ∉ s1.running_jobs.elems ∧
      (∀ x, x ≠ "T1" → (x ∈ s1.running_jobs.elems ↔ x ∈ (StringSet.ofList ["T1"]).elems)) ∧
      s1.estimated_cost = 0 + 1 :=
  finalize_duplicate_completion demoEnv
    (demoState emptyCache [] [] ["T2"] (StringSet.ofList ["T1"]) StringSet.empty)
    "T1" [⟨"V1", "out"⟩] 1 (by decide) (by decide)

/-- C4, as the claim states it, fails: on the concrete instance `T1` is in
`running_jobs`, and after the failure callback runs for `T1` with the retriable
reason `SocketFailure` it is still there. -/
theorem failure_callback_keeps_running_job :
    "T1" ∈ (demoState emptyCache [] ["T1"] [] (StringSet.ofList ["T1"])
        StringSet.empty).running_jobs.elems ∧
    (failure_callback (demoState emptyCache [] ["T1"] [] (StringSet.ofList ["T1"])
        StringSet.empty) "T1" JobStatus.SocketFailure).returned = true ∧
    "T1" ∈ (failure_callback (demoState emptyCache [] ["T1"] [] (StringSet.ofList ["T1"])
        StringSet.empty) "T1" JobStatus.SocketFailure).state.running_jobs.elems := by
  decide

/-- C4, amended: for every hash `h` in `running_jobs`, after the success
callback (`finalize_execution`) runs for `h`, whether it returns or throws, `h`
is not in `running_jobs`; the failure callback for a retriable reason returns
with `running_jobs` unchanged, so `h` is still in it, and with `h` appended to
`job_queue`. -/
theorem callbacks_and_running_jobs [Add C] (env : Env G E C) (s : Reductor G E C)
    (h : Hash) (outputs : List ThunkOutput) (cost : C) (reason : JobStatus)
    (hin : h ∈ s.running_jobs.elems) :
    h ∉ (finalize_execution env s h outputs cost).state.running_jobs.elems ∧
    ((reason = JobStatus.InvocationFailure ∨ reason = JobStatus.RateLimit ∨
      reason = JobStatus.FetchDependenciesFailure ∨ reason = JobStatus.UploadOutputFailure ∨
      reason = JobStatus.OperationalFailure ∨ reason = JobStatus.SocketFailure ∨
      reason = JobStatus.ChildProcessFailure) →
        (failure_callback s h reason).returned = true ∧
        (failure_callback s h reason).state.running_jobs = s.running_jobs ∧
        h ∈ (failure_callback s h reason).state.running_jobs.elems ∧
        (failure_callback s h reason).state.job_queue = s.job_queue ++ [h]) := by
  constructor
  · rw [finalize_execution_running_jobs]
    exact StringSet.not_mem_erase _ _
  · intro hr
    rcases hr with hr | hr | hr | hr | hr | hr | hr <;> subst hr <;>
      exact ⟨rfl, rfl, hin, rfl⟩

/-- Witness of C4 (amended) on the concrete instance, for the running `T1`. -/
theorem callbacks_and_running_jobs_witness :
    "T1" ∉ (finalize_execution demoEnv
        (demoState emptyCache [] ["T1"] [] (StringSet.ofList ["T1"]) StringSet.empty)
        "T1" [⟨"V1", "out"⟩] 0).state.running_jobs.elems ∧
    "T1" ∈ (failure_callback
        (demoState emptyCache [] ["T1"] [] (StringSet.ofList ["T1"]) StringSet.empty)
        "T1" JobStatus.RateLimit).state.running_jobs.elems :=
  ⟨(callbacks_and_running_jobs demoEnv
      (demoState emptyCache [] ["T1"] [] (StringSet.ofList ["T1"]) StringSet.empty)
      "T1" [⟨"V1", "out"⟩] 0 JobStatus.RateLimit (by decide)).1,
   ((callbacks_and_running_jobs demoEnv
      (demoState emptyCache [] ["T1"] [] (StringSet.ofList ["T1"]) StringSet.empty)
      "T1" [⟨"V1", "out"⟩] 0 JobStatus.RateLimit (by decide)).2 (by simp)).2.2.1⟩

/-- What `finalize_execution` does to `remaining_targets` for a hash present in
the graph: it returns and, when the primary output hash is of type `Value`,
removes the original hash (as the graph reports it after the force); when the
primary output hash is of type `Thunk` or of type `Executable`,
`remaining_targets` is unchanged. -/
theorem finalize_target_completion [Add C] (env : Env G E C) (s : Reductor G E C)
    (h : Hash) (o : ThunkOutput) (rest : List ThunkOutput) (cost : C) (new_o1s : List Hash)
    (hpresent : (env.graph.force_thunk s.dep_graph h (o :: rest)).1 = some new_o1s) :
    (finalize_execution env s h (o :: rest) cost).returned = true ∧
    (finalize_execution env s h (o :: rest) cost).state.dep_graph
      = (env.graph.force_thunk s.dep_graph h (o :: rest)).2 ∧
    (env.hash_type o.hash = ObjectType.Value →
      (finalize_execution env s h (o :: rest) cost).state.remaining_targets
        = s.remaining_targets.erase (env.graph.original_hash
            (env.graph.force_thunk s.dep_graph h (o :: rest)).2 h) ∧
      env.graph.original_hash (env.graph.force_thunk s.dep_graph h (o :: rest)).2 h
        ∉ (finalize_execution env s h (o :: rest) cost).state.remaining_targets.elems) ∧
    ((env.hash_type o.hash = ObjectType.Thunk ∨ env.hash_type o.hash = ObjectType.Executable) →
      (finalize_execution env s h (o :: rest) cost).state.remaining_targets
        = s.remaining_targets) := by
  by_cases hv : env.hash_type o.hash = ObjectType.Value
  · rw [finalize_execution_value env s h o rest cost new_o1s hpresent hv]
    refine ⟨rfl, rfl, fun _ => ⟨rfl, StringSet.not_mem_erase _ _⟩, ?_⟩
    intro hne
    rcases hne with hne | hne <;> rw [hv] at hne <;> cases hne
  · rw [finalize_execution_not_value env s h o rest cost new_o1s hpresent hv]
    exact ⟨rfl, rfl, fun hv2 => absurd hv2 hv, fun _ => rfl⟩

theorem engine_loop_none_admits (ops : EngineOps E) (t : Thunk) (full : ExecState) :
    ∀ (es : List E) (st : ExecState), (∀ e ∈ es, ops.can_execute e t = false) →
      engine_loop ops t full es st = (st, es) := by
  intro es
  induction es with
  | nil => intro st _; rfl
  | cons e es ih =>
    intro st hno
    have he : ops.can_execute e t = false := hno e (List.mem_cons_self _ _)
    have hes : ∀ x ∈ es, ops.can_execute x t = false :=
      fun x hx => hno x (List.mem_cons_of_mem _ hx)
    simp [engine_loop, he, ih st hes]

theorem engine_loop_full_from_full (ops : EngineOps E) (t : Thunk) (full : ExecState) :
    ∀ (es : List E),
      (∀ e ∈ es, ops.can_execute e t = true → ops.max_jobs e ≤ ops.job_count e) →
      engine_loop ops t full es full = (full, es) := by
  intro es
  induction es with
  | nil => intro _; rfl
  | cons e es ih =>
    intro hfull
    have hes : ∀ x ∈ es, ops.can_execute x t = true → ops.max_jobs x ≤ ops.job_count x :=
      fun x hx => hfull x (List.mem_cons_of_mem _ hx)
    by_cases he : ops.can_execute e t = true
    · have hcap := hfull e (List.mem_cons_self _ _) he
      simp [engine_loop, he, hcap, ih hes]
    · simp [engine_loop, he, ih hes]

theorem engine_loop_all_full (ops : EngineOps E) (t : Thunk) (full : ExecState) :
    ∀ (es : List E) (st : ExecState),
      (∃ e ∈ es, ops.can_execute e t = true) →
      (∀ e ∈ es, ops.can_execute e t = true → ops.max_jobs e ≤ ops.job_count e) →
      engine_loop ops t full es st = (full, es) := by
  intro es
  induction es with
  | nil => intro st hex _; obtain ⟨e, he, _⟩ := hex; cases he
  | cons e es ih =>
    intro st hex hfull
    have hes : ∀ x ∈ es, ops.can_execute x t = true → ops.max_jobs x ≤ ops.job_count x :=
      fun x hx => hfull x (List.mem_cons_of_mem _ hx)
    by_cases he : ops.can_execute e t = true
    · have hcap := hfull e (List.mem_cons_self _ _) he
      simp [engine_loop, he, hcap, engine_loop_full_from_full ops t full es hes]
    · obtain ⟨x, hx, hxa⟩ := hex
      have hx2 : x ∈ es := by
        rcases List.mem_cons.mp hx with hx | hx
        · subst hx; exact absurd hxa he
        · exact hx
      simp [engine_loop, he, ih st ⟨x, hx2, hxa⟩ hes]

theorem engine_loop_dispatch (ops : EngineOps E) (t : Thunk) (full : ExecState)
    (e : E) (post : List E) (he : ops.can_execute e t = true)
    (hroom : ops.job_count e < ops.max_jobs e) :
    ∀ (pre : List E) (st : ExecState),
      (∀ x ∈ pre, ¬ (ops.can_execute x t = true ∧ ops.job_count x < ops.max_jobs x)) →
      engine_loop ops t full (pre ++ e :: post) st
        = (ExecState.EXECUTING, pre ++ ops.force_thunk e t :: post) := by
  intro pre
  induction pre with
  | nil =>
    intro st _
    simp [engine_loop, he, Nat.not_le.mpr hroom]
  | cons x pre ih =>
    intro st hpre
    have hrest : ∀ y ∈ pre, ¬ (ops.can_execute y t = true ∧ ops.job_count y < ops.max_jobs y) :=
      fun y hy => hpre y (List.mem_cons_of_mem _ hy)
    have hx := hpre x (List.mem_cons_self _ _)
    by_cases hxa : ops.can_execute x t = true
    · have hcap : ops.max_jobs x ≤ ops.job_count x := by
        by_contra hlt
        exact hx ⟨hxa, Nat.not_le.mp hlt⟩
      simp [engine_loop, hxa, hcap, ih full hrest]
    · simp [engine_loop, hxa, ih st hrest]

theorem exists_first_ready (ops : EngineOps E) (t : Thunk) :
    ∀ (es : List E),
      (∃ e ∈ es, ops.can_execute e t = true ∧ ops.job_count e < ops.max_jobs e) →
      ∃ (pre : List E) (e : E) (post : List E), es = pre ++ e :: post ∧
        (∀ x ∈ pre, ¬ (ops.can_execute x t = true ∧ ops.job_count x < ops.max_jobs x)) ∧
        ops.can_execute e t = true ∧ ops.job_count e < ops.max_jobs e := by
  intro es
  induction es with
  | nil => intro hex; obtain ⟨e, he, _⟩ := hex; cases he
  | cons x xs ih =>
    intro hex
    by_cases hx : ops.can_execute x t = true ∧ ops.job_count x < ops.max_jobs x
    · exact ⟨[], x, xs, rfl, by simp, hx.1, hx.2⟩
    · obtain ⟨e, he, hready⟩ := hex
      have he2 : e ∈ xs := by
        rcases List.mem_cons.mp he with he | he
        · subst he; exact absurd hready hx
        · exact he
      obtain ⟨pre, e1, post, hsplit, hpre, hready1⟩ := ih ⟨e, he2, hready⟩
      refine ⟨x :: pre, e1, post, by simp [hsplit], ?_, hready1⟩
      intro y hy
      rcases List.mem_cons.mp hy with hy | hy
      · subst hy; exact hx
      · exact hpre y hy

theorem engine_loop_cannot_iff (ops : EngineOps E) (t : Thunk) (full : ExecState)
    (hfull : full ≠ ExecState.CANNOT_BE_EXECUTED) :
    ∀ (es : List E) (st : ExecState),
      (engine_loop ops t full es st).1 = ExecState.CANNOT_BE_EXECUTED ↔
        st = ExecState.CANNOT_BE_EXECUTED ∧ ∀ e ∈ es, ops.can_execute e t = false := by
  intro es
  induction es with
  | nil => intro st; simp [engine_loop]
  | cons e es ih =>
    intro st
    by_cases he : ops.can_execute e t = true
    · by_cases hcap : ops.max_jobs e ≤ ops.job_count e
      · simp [engine_loop, he, hcap, ih full, hfull]
      · simp [engine_loop, he, hcap]
    · simp [engine_loop, he, ih st]

theorem dispatch_primary_exec (ops : EngineOps E) (t : Thunk) (pre : List E) (e : E)
    (post fallbacks : List E)
    (hpre : ∀ x ∈ pre, ¬ (ops.can_execute x t = true ∧ ops.job_count x < ops.max_jobs x))
    (he : ops.can_execute e t = true) (hroom : ops.job_count e < ops.max_jobs e) :
    dispatch ops t (pre ++ e :: post) fallbacks
      = (ExecState.EXECUTING, pre ++ ops.force_thunk e t :: post, fallbacks) := by
  simp [dispatch, engine_loop_dispatch ops t _ e post he hroom pre _ hpre]

theorem dispatch_primary_full (ops : EngineOps E) (t : Thunk) (primaries fallbacks : List E)
    (hex : ∃ e ∈ primaries, ops.can_execute e t = true)
    (hfull : ∀ e ∈ primaries, ops.can_execute e t = true → ops.max_jobs e ≤ ops.job_count e) :
    dispatch ops t primaries fallbacks = (ExecState.FULL_CAPACITY, primaries, fallbacks) := by
  simp [dispatch, engine_loop_all_full ops t _ primaries _ hex hfull]

theorem dispatch_fallback_exec (ops : EngineOps E) (t : Thunk) (primaries pre : List E) (e : E)
    (post : List E) (hno : ∀ x ∈ primaries, ops.can_execute x t = false)
    (hpre : ∀ x ∈ pre, ¬ (ops.can_execute x t = true ∧ ops.job_count x < ops.max_jobs x))
    (he : ops.can_execute e t = true) (hroom : ops.job_count e < ops.max_jobs e) :
    dispatch ops t primaries (pre ++ e :: post)
      = (ExecState.EXECUTING, primaries, pre ++ ops.force_thunk e t :: post) := by
  simp [dispatch, engine_loop_none_admits ops t _ primaries _ hno,
    engine_loop_dispatch ops t _ e post he hroom pre _ hpre]

theorem dispatch_fallback_full (ops : EngineOps E) (t : Thunk) (primaries fallbacks : List E)
    (hno : ∀ x ∈ primaries, ops.can_execute x t = false)
    (hex : ∃ e ∈ fallbacks, ops.can_execute e t = true)
    (hfull : ∀ e ∈ fallbacks, ops.can_execute e t = true → ops.max_jobs e ≤ ops.job_count e) :
    dispatch ops t primaries fallbacks
      = (ExecState.FULL_FALLBACK_CAPACITY, primaries, fallbacks) := by
  simp [dispatch, engine_loop_none_admits ops t _ primaries _ hno,
    engine_loop_all_full ops t _ fallbacks _ hex hfull]

theorem dispatch_cannot (ops : EngineOps E) (t : Thunk) (primaries fallbacks : List E)
    (hno : ∀ x ∈ primaries, ops.can_execute x t = false)
    (hnof : ∀ x ∈ fallbacks, ops.can_execute x t = false) :
    dispatch ops t primaries fallbacks
      = (ExecState.CANNOT_BE_EXECUTED, primaries, fallbacks) := by
  simp [dispatch, engine_loop_none_admits ops t _ primaries _ hno,
    engine_loop_none_admits ops t _ fallbacks _ hnof]

theorem dispatch_cannot_iff (ops : EngineOps E) (t : Thunk) (primaries fallbacks : List E) :
    (dispatch ops t primaries fallbacks).1 = ExecState.CANNOT_BE_EXECUTED ↔
      (∀ x ∈ primaries, ops.can_execute x t = false) ∧
      (∀ x ∈ fallbacks, ops.can_execute x t = false) := by
  constructor
  · intro hd
    unfold dispatch at hd
    by_cases hp : (engine_loop ops t ExecState.FULL_CAPACITY primaries
        ExecState.CANNOT_BE_EXECUTED).1 = ExecState.CANNOT_BE_EXECUTED
    · simp only [hp, if_true] at hd
      exact ⟨((engine_loop_cannot_iff ops t _ (by decide) _ _).mp hp).2,
        ((engine_loop_cannot_iff ops t _ (by decide) _ _).mp hd).2⟩
    · simp only [hp, if_false] at hd
  · rintro ⟨hno, hnof⟩
    rw [dispatch_cannot ops t primaries fallbacks hno hnof]

/-- C1: dispatch of a cache-missed hash `h` with thunk `t`, for the state `s`
left by `pop_front`, every list of primary engines and every list of fallback
engines.  (a) If some primary admits `t` and has `job_count < max_jobs`, the
primaries are `pre ++ e :: post` where `e` is the first such engine (a1); and
whenever they are, the body ends with `force_thunk` applied to `e` and to no
other engine, and with `h` inserted into `running_jobs` (a2).  (b) If some
primary admits `t` and every admitting primary is at capacity, the body breaks
with all engines, fallbacks included, untouched.  (c) If no primary admits
`t`, the same rule is applied to the fallbacks.  (d) The body throws
`no execution engine could execute` exactly when no primary and no fallback
admits `t`. -/
theorem dispatch_step_spec [Add C] [Zero C] (env : Env G E C) (fuel : Nat)
    (s : Reductor G E C) (h : Hash) (t : Thunk)
    (hmiss : chase_loop s.cache h fuel none = some none)
    (hthunk : env.graph.get_thunk s.dep_graph h = some t) :
    (∀ (tier : List E),
      (∃ e ∈ tier, env.engine.can_execute e t = true ∧
        env.engine.job_count e < env.engine.max_jobs e) →
      ∃ (pre : List E) (e : E) (post : List E), tier = pre ++ e :: post ∧
        (∀ x ∈ pre, ¬ (env.engine.can_execute x t = true ∧
          env.engine.job_count x < env.engine.max_jobs x)) ∧
        env.engine.can_execute e t = true ∧
        env.engine.job_count e < env.engine.max_jobs e) ∧
    (∀ (pre : List E) (e : E) (post : List E), s.exec_engines = pre ++ e :: post →
      (∀ x ∈ pre, ¬ (env.engine.can_execute x t = true ∧
        env.engine.job_count x < env.engine.max_jobs x)) →
      env.engine.can_execute e t = true →
      env.engine.job_count e < env.engine.max_jobs e →
      drain_body env fuel s h = some (Flow.next
        { s with exec_engines := pre ++ env.engine.force_thunk e t :: post,
                 running_jobs := s.running_jobs.insert h }) ∧
      h ∈ (s.running_jobs.insert h).elems) ∧
    ((∃ e ∈ s.exec_engines, env.engine.can_execute e t = true) →
      (∀ e ∈ s.exec_engines, env.engine.can_execute e t = true →
        env.engine.max_jobs e ≤ env.engine.job_count e) →
      drain_body env fuel s h = some (Flow.brk { s with job_queue := h :: s.job_queue })) ∧
    ((∀ e ∈ s.exec_engines, env.engine.can_execute e t = false) →
      (∀ (pre : List E) (e : E) (post : List E), s.fallback_engines = pre ++ e :: post →
        (∀ x ∈ pre, ¬ (env.engine.can_execute x t = true ∧
          env.engine.job_count x < env.engine.max_jobs x)) →
        env.engine.can_execute e t = true →
        env.engine.job_count e < env.engine.max_jobs e →
        drain_body env fuel s h = some (Flow.next
          { s with fallback_engines := pre ++ env.engine.force_thunk e t :: post,
                   running_jobs := s.running_jobs.insert h })) ∧
      ((∃ e ∈ s.fallback_engines, env.engine.can_execute e t = true) →
        (∀ e ∈ s.fallback_engines, env.engine.can_execute e t = true →
          env.engine.max_jobs e ≤ env.engine.job_count e) →
        drain_body env fuel s h = some (Flow.brk { s with job_queue := h :: s.job_queue }))) ∧
    ((∃ s1, drain_body env fuel s h = some (Flow.threw
        (Exn.runtime_error ("no execution engine could execute " ++ h)) s1)) ↔
      ((∀ e ∈ s.exec_engines, env.engine.can_execute e t = false) ∧
       (∀ e ∈ s.fallback_engines, env.engine.can_execute e t = false))) := by
  refine ⟨?_, ?_, ?_, ?_, ?_⟩
  · intro tier hex
    exact exists_first_ready env.engine t tier hex
  · intro pre e post hP hpre he hroom
    have hd := dispatch_primary_exec env.engine t pre e post s.fallback_engines hpre he hroom
    rw [← hP] at hd
    refine ⟨?_, StringSet.mem_insert_self _ _⟩
    simp only [drain_body, hmiss, hthunk, hd]
  · intro hex hfull
    have hd := dispatch_primary_full env.engine t s.exec_engines s.fallback_engines hex hfull
    simp only [drain_body, hmiss, hthunk, hd]
  · intro hno
    constructor
    · intro pre e post hF hpre he hroom
      have hd := dispatch_fallback_exec env.engine t s.exec_engines pre e post hno hpre he hroom
      rw [← hF] at hd
      simp only [drain_body, hmiss, hthunk, hd]
    · intro hex hfull
      have hd := dispatch_fallback_full env.engine t s.exec_engines s.fallback_engines
        hno hex hfull
      simp only [drain_body, hmiss, hthunk, hd]
  · constructor
    · rintro ⟨s1, hs1⟩
      apply (dispatch_cannot_iff env.engine t s.exec_engines s.fallback_engines).mp
      simp only [drain_body, hmiss, hthunk] at hs1
      cases hd : (dispatch env.engine t s.exec_engines s.fallback_engines).1 with
      | CANNOT_BE_EXECUTED => rfl
      | FULL_CAPACITY => simp [hd] at hs1
      | FULL_FALLBACK_CAPACITY => simp [hd] at hs1
      | EXECUTING => simp [hd] at hs1
    · rintro ⟨hno, hnof⟩
      have hd := dispatch_cannot env.engine t s.exec_engines s.fallback_engines hno hnof
      exact ⟨s, by simp only [drain_body, hmiss, hthunk, hd]⟩

/-- Witness of C1 on the concrete instance: of three primaries, the first is at
capacity and the second does not admit, so the job goes to the third, while the
idle fallback is left alone. -/
theorem dispatch_step_spec_witness :
    drain_body demoEnv 1
        (demoDispatchState emptyCache [⟨true, 1, 1⟩, ⟨false, 0, 1⟩, ⟨true, 0, 2⟩]
          [⟨true, 0, 1⟩] ["T2"]) "T1"
      = some (Flow.next
        { demoDispatchState emptyCache [⟨true, 1, 1⟩, ⟨false, 0, 1⟩, ⟨true, 0, 2⟩]
            [⟨true, 0, 1⟩] ["T2"] with
          exec_engines := [⟨true, 1, 1⟩, ⟨false, 0, 1⟩] ++
            demoEnv.engine.force_thunk ⟨true, 0, 2⟩ ⟨[], ["out"]⟩ :: [],
          running_jobs := StringSet.empty.insert "T1" }) ∧
    "T1" ∈ (StringSet.empty.insert "T1").elems :=
  (dispatch_step_spec demoEnv 1
      (demoDispatchState emptyCache [⟨true, 1, 1⟩, ⟨false, 0, 1⟩, ⟨true, 0, 2⟩]
        [⟨true, 0, 1⟩] ["T2"]) "T1" ⟨[], ["out"]⟩ (by decide) (by decide)).2.1
    [⟨true, 1, 1⟩, ⟨false, 0, 1⟩] ⟨true, 0, 2⟩ [] rfl (by decide) (by decide) (by decide)

/-- C6: capacity backpressure preserves the queue.  For every state whose
`job_queue` has front `h`, when `h` misses the cache and the tier the dispatch
consults (the primaries if one of them admits the thunk, the fallbacks
otherwise) holds an admitting engine but every admitting engine there is at
capacity, the body of the drain loop breaks in the state the drain started
from: `job_queue` is `h` followed by the same entries, `running_jobs` and all
engines are untouched; and the drain loop ends there, with no later entry
popped. -/
theorem backpressure_preserves_queue [Add C] [Zero C] (env : Env G E C) (fuel : Nat)
    (s : Reductor G E C) (h : Hash) (rest : List Hash) (t : Thunk)
    (hq : s.job_queue = h :: rest)
    (hmiss : chase_loop s.cache h fuel none = some none)
    (hthunk : env.graph.get_thunk s.dep_graph h = some t)
    (htier :
      ((∃ e ∈ s.exec_engines, env.engine.can_execute e t = true) ∧
        (∀ e ∈ s.exec_engines, env.engine.can_execute e t = true →
          env.engine.max_jobs e ≤ env.engine.job_count e)) ∨
      ((∀ e ∈ s.exec_engines, env.engine.can_execute e t = false) ∧
        (∃ e ∈ s.fallback_engines, env.engine.can_execute e t = true) ∧
        (∀ e ∈ s.fallback_engines, env.engine.can_execute e t = true →
          env.engine.max_jobs e ≤ env.engine.job_count e))) :
    drain_body env fuel { s with job_queue := rest } h = some (Flow.brk s) ∧
    drain env (fuel + 1) s = some (Res.ok s) := by
  have hbody : drain_body env fuel { s with job_queue := rest } h = some (Flow.brk s) := by
    have hs : s = { s with job_queue := h :: rest } := by
      cases s
      simp only at hq
      simp [hq]
    rcases htier with ⟨hex, hfull⟩ | ⟨hno, hex, hfull⟩
    · have hd := dispatch_primary_full env.engine t s.exec_engines s.fallback_engines hex hfull
      have hbrk : drain_body env fuel { s with job_queue := rest } h
          = some (Flow.brk { s with job_queue := h :: rest }) := by
        simp only [drain_body, hmiss, hthunk, hd]
      rw [hbrk, ← hs]
    · have hd := dispatch_fallback_full env.engine t s.exec_engines s.fallback_engines
        hno hex hfull
      have hbrk : drain_body env fuel { s with job_queue := rest } h
          = some (Flow.brk { s with job_queue := h :: rest }) := by
        simp only [drain_body, hmiss, hthunk, hd]
      rw [hbrk, ← hs]
  refine ⟨hbody, ?_⟩
  rw [drain]
  simp only [hq, hbody]

/-- Witness of C6 on the concrete instance: the only primary admits and is at
capacity, so `T1` stays at the front of the queue `T1`, `T2`, although the
fallback is idle. -/
theorem backpressure_preserves_queue_witness :
    (demoDispatchState emptyCache [⟨true, 1, 1⟩] [⟨true, 0, 1⟩] ["T1", "T2"]).job_queue
      = ["T1", "T2"] ∧
    drain_body demoEnv 1
        { demoDispatchState emptyCache [⟨true, 1, 1⟩] [⟨true, 0, 1⟩] ["T1", "T2"] with
          job_queue := ["T2"] } "T1"
      = some (Flow.brk
          (demoDispatchState emptyCache [⟨true, 1, 1⟩] [⟨true, 0, 1⟩] ["T1", "T2"])) ∧
    drain demoEnv (1 + 1)
        (demoDispatchState emptyCache [⟨true, 1, 1⟩] [⟨true, 0, 1⟩] ["T1", "T2"])
      = some (Res.ok
          (demoDispatchState emptyCache [⟨true, 1, 1⟩] [⟨true, 0, 1⟩] ["T1", "T2"])) :=
  ⟨rfl, backpressure_preserves_queue demoEnv 1
    (demoDispatchState emptyCache [⟨true, 1, 1⟩] [⟨true, 0, 1⟩] ["T1", "T2"])
    "T1" ["T2"] ⟨[], ["out"]⟩ rfl (by decide) (by decide)
    (Or.inl ⟨by decide, by decide⟩)⟩

/-! ## C7: finalization of a cache hit -/

theorem cached_outputs_none_iff (cache : Hash → Option ReductionResult)
    (for_output : Hash → String → Hash) (h : Hash) :
    ∀ (tags : List String) (acc : List ThunkOutput),
      cached_outputs cache for_output h tags acc = none ↔
        ∃ tag ∈ tags, cache (for_output h tag) = none := by
  intro tags
  induction tags with
  | nil => intro acc; simp [cached_outputs]
  | cons tag tags ih =>
    intro acc
    cases hc : cache (for_output h tag) with
    | none => simp [cached_outputs, hc]
    | some r => simp [cached_outputs, hc, ih]

theorem cached_outputs_some (cache : Hash → Option ReductionResult)
    (for_output : Hash → String → Hash) (h : Hash) :
    ∀ (tags : List String) (acc outs : List ThunkOutput),
      cached_outputs cache for_output h tags acc = some outs →
        ∃ new, outs = acc ++ new ∧
          List.Forall₂ (fun tag o => o.tag = tag ∧
            ∃ r, cache (for_output h tag) = some r ∧ o.hash = r.hash) tags new := by
  intro tags
  induction tags with
  | nil =>
    intro acc outs hrun
    simp only [cached_outputs, Option.some.injEq] at hrun
    exact ⟨[], by simp [hrun], List.Forall₂.nil⟩
  | cons tag tags ih =>
    intro acc outs hrun
    cases hc : cache (for_output h tag) with
    | none => simp [cached_outputs, hc] at hrun
    | some r =>
      simp only [cached_outputs, hc] at hrun
      obtain ⟨new, hnew, hall⟩ := ih _ _ hrun
      refine ⟨⟨r.hash, tag⟩ :: new, by simp [hnew], ?_⟩
      exact List.Forall₂.cons ⟨rfl, r, hc, rfl⟩ hall

theorem finalize_execution_throws [Add C] (env : Env G E C) (s s1 : Reductor G E C)
    (h : Hash) (outputs : List ThunkOutput) (cost : C) (e : Exn)
    (hthrow : finalize_execution env s h outputs cost = Res.threw e s1) :
    e = Exn.out_of_range := by
  unfold finalize_execution at hthrow
  cases outputs with
  | nil =>
    simp only [Res.threw.injEq] at hthrow
    exact hthrow.1.symm
  | cons o rest =>
    simp only at hthrow
    split at hthrow
    · cases hthrow
    · split at hthrow <;> cases hthrow

/-- C7: cache-hit finalization.  For every popped hash `h` whose chase finds
an entry and whose thunk blob reads as `thunk`, the body of the drain loop
throws `inconsistent cache entries` exactly when some output tag declared by
`thunk` has no cache entry under `for_output( h, tag )`; otherwise it is the
call of `finalize_execution` for `h` with cost 0 and with one output per
declared tag, in declaration order, each carrying its tag and the hash of the
cache entry for that tag, and that call leaves every engine untouched. -/
theorem cache_hit_step_spec [Add C] [Zero C] (env : Env G E C) (fuel : Nat)
    (s : Reductor G E C) (h : Hash) (entry : ReductionResult) (thunk : Thunk)
    (hhit : chase_loop s.cache h fuel none = some (some entry))
    (hread : env.read_thunk h = some thunk) :
    ((∃ s1, drain_body env fuel s h = some (Flow.threw
        (Exn.runtime_error "inconsistent cache entries") s1)) ↔
      ∃ tag ∈ thunk.outputs, s.cache (env.for_output h tag) = none) ∧
    ((∀ tag ∈ thunk.outputs, s.cache (env.for_output h tag) ≠ none) →
      ∃ new_outputs : List ThunkOutput,
        List.Forall₂ (fun tag o => o.tag = tag ∧
          ∃ r, s.cache (env.for_output h tag) = some r ∧ o.hash = r.hash)
          thunk.outputs new_outputs ∧
        drain_body env fuel s h
          = some (Flow.ofRes (finalize_execution env s h new_outputs 0)) ∧
        (finalize_execution env s h new_outputs 0).state.exec_engines = s.exec_engines ∧
        (finalize_execution env s h new_outputs 0).state.fallback_engines
          = s.fallback_engines) := by
  constructor
  · constructor
    · rintro ⟨s1, hs1⟩
      apply (cached_outputs_none_iff s.cache env.for_output h thunk.outputs []).mp
      simp only [drain_body, hhit, hread] at hs1
      cases hco : cached_outputs s.cache env.for_output h thunk.outputs [] with
      | none => rfl
      | some outs =>
        simp only [hco, Option.some.injEq] at hs1
        cases hfin : finalize_execution env s h outs 0 with
        | ok s2 => simp [hfin, Flow.ofRes] at hs1
        | threw e s2 =>
          have he := finalize_execution_throws env s s2 h outs 0 e hfin
          subst he
          simp [hfin, Flow.ofRes] at hs1
    · intro hmissing
      have hco := (cached_outputs_none_iff s.cache env.for_output h thunk.outputs []).mpr hmissing
      exact ⟨s, by simp only [drain_body, hhit, hread, hco]⟩
  · intro hall
    cases hco : cached_outputs s.cache env.for_output h thunk.outputs [] with
    | none =>
      obtain ⟨tag, htag, hnone⟩ :=
        (cached_outputs_none_iff s.cache env.for_output h thunk.outputs []).mp hco
      exact absurd hnone (hall tag htag)
    | some outs =>
      obtain ⟨new, hnew, hforall⟩ :=
        cached_outputs_some s.cache env.for_output h thunk.outputs [] outs hco
      simp only [List.nil_append] at hnew
      subst hnew
      refine ⟨outs, hforall, ?_, ?_⟩
      · simp only [drain_body, hhit, hread, hco]
      · exact finalize_execution_engines env s h outs 0

/-- Witness of C7 on the concrete instance: `T1` hits the cache and its only
output tag `out` has an entry, so the body is the call of `finalize_execution`
with outputs made from the cache entries. -/
theorem cache_hit_step_spec_witness :
    ∃ new_outputs : List ThunkOutput,
      List.Forall₂ (fun tag o => o.tag = tag ∧
        ∃ r, demoCache (demoEnv.for_output "T1" tag) = some r ∧ o.hash = r.hash)
        ["out"] new_outputs ∧
      drain_body demoEnv 2 (demoDispatchState demoCache [⟨true, 0, 1⟩] [] ["T2"]) "T1"
        = some (Flow.ofRes (finalize_execution demoEnv
            (demoDispatchState demoCache [⟨true, 0, 1⟩] [] ["T2"]) "T1" new_outputs 0)) ∧
      (finalize_execution demoEnv (demoDispatchState demoCache [⟨true, 0, 1⟩] [] ["T2"])
        "T1" new_outputs 0).state.exec_engines = [⟨true, 0, 1⟩] ∧
      (finalize_execution demoEnv (demoDispatchState demoCache [⟨true, 0, 1⟩] [] ["T2"])
        "T1" new_outputs 0).state.fallback_engines = [] :=
  (cache_hit_step_spec demoEnv 2 (demoDispatchState demoCache [⟨true, 0, 1⟩] [] ["T2"])
    "T1" ⟨"V1", 0⟩ ⟨[], ["out"]⟩ (by decide) (by decide)).2 (by decide)

/-! ## C9: work that is already complete -/

theorem reduce_loop_polls [Add C] [Zero C] (env : Env G E C) :
    ∀ (fuel : Nat) (s : Reductor G E C) (polls : Nat) (run : Run G E C) (hs : List Hash),
      reduce_loop env fuel s polls = some run → run.outcome = Except.ok hs →
      polls + 1 ≤ run.polls := by
  intro fuel
  induction fuel with
  | zero => intro s polls run hs hrun _; simp [reduce_loop] at hrun
  | succ n ih =>
    intro s polls run hs hrun hok
    rw [reduce_loop] at hrun
    cases hd : drain env n s with
    | none => simp [hd] at hrun
    | some res =>
      cases res with
      | threw e s1 =>
        simp only [hd, Option.some.injEq] at hrun
        subst hrun
        cases hok
      | ok s1 =>
        simp only [hd] at hrun
        cases hp : env.loop_once s1 s1.poller_timeout with
        | threw e s2 =>
          simp only [hp, Option.some.injEq] at hrun
          subst hrun
          cases hok
        | result r s2 =>
          simp only [hp] at hrun
          split at hrun
          · split at hrun
            · simp only [Option.some.injEq] at hrun
              subst hrun
              cases hok
            · simp only [Option.some.injEq] at hrun
              subst hrun
              exact le_refl _
          · have := ih _ _ run hs hrun hok
            omega

theorem construct_ok [Add C] [Zero C] (env : Env G E C) (cache : Hash → Option ReductionResult)
    (targets : List Hash) (engines fallbacks : List E) (base : Int) (bar : Bool)
    (s : Reductor G E C) (hcons : construct env cache targets engines fallbacks base bar = Except.ok s) :
    s = { target_hashes := targets
          remaining_targets := StringSet.ofList targets
          status_bar := bar
          base_poller_timeout := base
          poller_timeout := base
          exec_engines := engines.map env.engine.setup
          fallback_engines := fallbacks.map env.engine.setup
          dep_graph := (seed_graph env.graph targets env.graph.empty StringSet.empty).1
          job_queue := (seed_graph env.graph targets env.graph.empty StringSet.empty).2.elems
          running_jobs := StringSet.empty
          finished_jobs := 0
          estimated_cost := 0
          cache := cache } := by
  unfold construct at hcons
  simp only at hcons
  split at hcons
  · cases hcons
  · cases hcons
    rfl

theorem is_finished_straggler_step (env : Env G E C) (r : PollResultType)
    (s : Reductor G E C)
    (hq : s.job_queue = []) (hrun : s.running_jobs.elems = [])
    (hrem : s.remaining_targets.elems = []) :
    is_finished (straggler_step env r s) = true := by
  unfold straggler_step
  split <;> simp [is_finished, StringSet.size, hq, hrun, hrem]

theorem straggler_step_frame (env : Env G E C) (r : PollResultType) (s : Reductor G E C) :
    (straggler_step env r s).target_hashes = s.target_hashes ∧
    (straggler_step env r s).dep_graph = s.dep_graph ∧
    (straggler_step env r s).cache = s.cache ∧
    (straggler_step env r s).exec_engines = s.exec_engines ∧
    (straggler_step env r s).fallback_engines = s.fallback_engines := by
  unfold straggler_step
  split <;> exact ⟨rfl, rfl, rfl, rfl, rfl⟩

/-- C9, as the claim states it, fails: on the concrete instance the run with
the empty target list, and the run with the single target `T1` whose reduction
and output entry are in the cache, both return their result after one call of
`loop_once`, not without any. -/
theorem complete_runs_poll_once :
    ((construct demoEnv emptyCache [] [⟨true, 0, 1⟩] [] 5000 false).toOption.bind
        (fun s0 => (reduce demoEnv 2 s0).map (fun run => (run.outcome.toOption, run.polls))))
      = some (some [], 1) ∧
    ((construct demoEnv demoCache ["T1"] [⟨true, 0, 1⟩] [] 5000 false).toOption.bind
        (fun s0 => (reduce demoEnv 4 s0).map (fun run => (run.outcome.toOption, run.polls))))
      = some (some ["V1"], 1) := by
  decide

/-- C9, amended: no call of `reduce` returns a result without a call of
`loop_once`.  For every run whose target list is empty, and for every run with
a single order-one target whose reduction and per-output entries are in the
cache (the primary one a `Value`), `reduce` drains the queue without touching
an engine, calls `loop_once` exactly once and, when that poll fires no
callback, returns its result: the empty list, respectively the cached hash of
the final name of the target. -/
theorem reduce_complete_work [Add C] [Zero C] (env : Env G E C) :
    (∀ (fuel : Nat) (s : Reductor G E C) (run : Run G E C) (hs : List Hash),
      reduce env fuel s = some run → run.outcome = Except.ok hs → 1 ≤ run.polls) ∧
    (∀ (cache : Hash → Option ReductionResult) (engines fallbacks : List E) (base : Int)
      (bar : Bool) (s : Reductor G E C) (r : PollResultType) (fuel : Nat),
      construct env cache [] engines fallbacks base bar = Except.ok s →
      env.loop_once s s.poller_timeout = Polled.result r s →
      reduce env (fuel + 2) s = some ⟨Except.ok [], straggler_step env r s, 1⟩) ∧
    (∀ (cache : Hash → Option ReductionResult) (engines fallbacks : List E) (base : Int)
      (bar : Bool) (s : Reductor G E C) (r : PollResultType) (fuel : Nat) (t : Hash)
      (entry answer : ReductionResult) (thunk : Thunk) (o : ThunkOutput)
      (rest : List ThunkOutput) (g2 : G),
      construct env cache [t] engines fallbacks base bar = Except.ok s →
      env.graph.order_one_dependencies (env.graph.add_thunk env.graph.empty t) t = [t] →
      chase_loop cache t fuel none = some (some entry) →
      env.read_thunk t = some thunk →
      cached_outputs cache env.for_output t thunk.outputs [] = some (o :: rest) →
      env.graph.force_thunk (env.graph.add_thunk env.graph.empty t) t (o :: rest)
        = (some [], g2) →
      env.hash_type o.hash = ObjectType.Value →
      env.graph.original_hash g2 t = t →
      cache (env.graph.updated_hash g2 t) = some answer →
      (∀ s1, drain env (fuel + 1) s = some (Res.ok s1) →
        env.loop_once s1 s1.poller_timeout = Polled.result r s1) →
      ∃ run, reduce env (fuel + 2) s = some run ∧
        run.outcome = Except.ok [answer.hash] ∧ run.polls = 1 ∧
        run.state.exec_engines = s.exec_engines ∧
        run.state.fallback_engines = s.fallback_engines) := by
  refine ⟨?_, ?_, ?_⟩
  · intro fuel s run hs hrun hok
    have := reduce_loop_polls env fuel s 0 run hs hrun hok
    omega
  · intro cache engines fallbacks base bar s r fuel hcons hpoll
    have hs := construct_ok env cache [] engines fallbacks base bar s hcons
    have hq : s.job_queue = [] := by rw [hs]; rfl
    have hrun : s.running_jobs.elems = [] := by rw [hs]; rfl
    have hrem : s.remaining_targets.elems = [] := by rw [hs]; rfl
    have htargets : s.target_hashes = [] := by rw [hs]
    have hfin := is_finished_straggler_step env r s hq hrun hrem
    have htargets2 : (straggler_step env r s).target_hashes = [] := by
      unfold straggler_step
      split <;> exact htargets
    have hdrain : drain env (fuel + 1) s = some (Res.ok s) := by
      rw [drain]
      simp only [hq]
    simp only [reduce, reduce_loop, hdrain, hpoll, hfin, htargets2, collect_final]
    simp
  · intro cache engines fallbacks base bar s r fuel t entry answer thunk o rest g2
      hcons ho1 hhit hread houts hforce hval horig hans hpoll
    have hs := construct_ok env cache [t] engines fallbacks base bar s hcons
    cases fuel with
    | zero => simp [chase_loop] at hhit
    | succ n =>
      have hq : s.job_queue = [t] := by
        rw [hs]
        simp [seed_graph, ho1, StringSet.insertAll, StringSet.insert, StringSet.empty]
      have hcache : s.cache = cache := by rw [hs]
      have htargets : s.target_hashes = [t] := by rw [hs]
      have hgraph : s.dep_graph = env.graph.add_thunk env.graph.empty t := by
        rw [hs]
        simp [seed_graph]
      have hrun0 : (s.running_jobs.erase t).elems = [] := by
        rw [hs]
        simp [StringSet.erase, StringSet.empty]
      have hrem0 : (s.remaining_targets.erase t).elems = [] := by
        rw [hs]
        simp [StringSet.erase, StringSet.ofList, StringSet.insertAll, StringSet.insert,
          StringSet.empty]
      obtain ⟨s1, hfinal, hq1, hrun1, hrem1, htg1, hg1, hc1, he1, hf1⟩ :
          ∃ s1, finalize_execution env { s with job_queue := [] } t (o :: rest) 0 = Res.ok s1 ∧
            s1.job_queue = [] ∧ s1.running_jobs.elems = [] ∧
            s1.remaining_targets.elems = [] ∧ s1.target_hashes = [t] ∧
            s1.dep_graph = g2 ∧ s1.cache = cache ∧
            s1.exec_engines = s.exec_engines ∧
            s1.fallback_engines = s.fallback_engines := by
        have hpresent : (env.graph.force_thunk
            ({ s with job_queue := [] } : Reductor G E C).dep_graph t (o :: rest)).1
              = some [] := by
          simp only [hgraph, hforce]
        refine ⟨_, finalize_execution_value env { s with job_queue := [] } t o rest 0 []
          hpresent hval, ?_, ?_, ?_, ?_, ?_, ?_, ?_, ?_⟩
        · simp
        · exact hrun0
        · simp only [hgraph, hforce, horig]
          exact hrem0
        · exact htargets
        · simp only [hgraph, hforce]
        · exact hcache
        · rfl
        · rfl
      have hbody : drain_body env (n + 1) { s with job_queue := [] } t
          = some (Flow.next s1) := by
        rw [← hcache] at hhit houts
        simp only [drain_body, hhit, hread, houts, hfinal, Flow.ofRes]
      have hdrain : drain env (n + 1 + 1) s = some (Res.ok s1) := by
        rw [drain]
        simp only [hq, hbody]
        rw [drain]
        simp only [hq1]
      have hpoll1 := hpoll s1 hdrain
      have hfin := is_finished_straggler_step env r s1 hq1 hrun1 hrem1
      have hframe := straggler_step_frame env r s1
      refine ⟨⟨collect_final env.graph (straggler_step env r s1)
          (straggler_step env r s1).target_hashes [], straggler_step env r s1, 1⟩, ?_, ?_, rfl, ?_, ?_⟩
      · simp only [reduce, reduce_loop, hdrain, hpoll1, hfin]
        simp
      · simp only [hframe.1, htg1, collect_final, hframe.2.1, hg1, hframe.2.2.1, hc1, hans]
        simp
      · simp only [hframe.2.2.2.1, he1]
      · simp only [hframe.2.2.2.2, hf1]

/-- Witness of C9 (amended) on the concrete instance: the run with the empty
target list returns the empty list after one poll, and the run with the single
cached target `T1` returns `V1` after one poll. -/
theorem reduce_complete_work_witness :
    (∃ s0, construct demoEnv emptyCache [] [⟨true, 0, 1⟩] [] 5000 false = Except.ok s0 ∧
      reduce demoEnv (0 + 2) s0
        = some ⟨Except.ok [], straggler_step demoEnv PollResultType.Ready s0, 1⟩) ∧
    (∃ s0, construct demoEnv demoCache ["T1"] [⟨true, 0, 1⟩] [] 5000 false = Except.ok s0 ∧
      ∃ run, reduce demoEnv (2 + 2) s0 = some run ∧
        run.outcome = Except.ok ["V1"] ∧ run.polls = 1 ∧
        run.state.exec_engines = s0.exec_engines ∧
        run.state.fallback_engines = s0.fallback_engines) :=
  ⟨⟨_, rfl, (reduce_complete_work demoEnv).2.1 emptyCache [⟨true, 0, 1⟩] [] 5000 false _
      PollResultType.Ready 0 rfl rfl⟩,
   ⟨_, rfl, (reduce_complete_work demoEnv).2.2 demoCache [⟨true, 0, 1⟩] [] 5000 false _
      PollResultType.Ready 2 "T1" ⟨"V1", 0⟩ ⟨"V1", 0⟩ ⟨[], ["out"]⟩ ⟨"V1", "out"⟩ [] []
      rfl rfl (by decide) rfl (by decide) (by decide) (by decide) rfl (by decide)
      (fun _ _ => rfl)⟩⟩

end Proofs

end GG
